import Mathlib

/-!
Shallow embedding of the asynchronous Helm reconciliation engine
(`cmd/resource` of the helm resource provider), together with proofs about
the identity codec, the readiness inspector, the event/timeout logic, the
uninstall path and the network-bridge (lambda) lifecycle helpers.

Machine strings are modelled as Lean `String`/`List Char` (valid Unicode
scalar values, matching valid-UTF-8 Go strings); bytes are `Nat` values
below 256; Go `int32`/`int` counters are `Int` (no claim here depends on
32-bit wrap-around); Go's nilable pointers are `Option`; a Go runtime
panic (nil dereference) is the `.panics` constructor of `PanicOr`.
-/

namespace HelmProvider

/-- Outcome of running a piece of Go code that can hit a runtime panic
(nil-pointer dereference): either it panics or it returns a result. -/
inductive PanicOr (α : Type) where
  | panics : PanicOr α
  | res : α → PanicOr α
  deriving Repr, DecidableEq

/-! ## JSON string escaping, as performed by Go `encoding/json`

`json.Marshal` (with its default HTML escaping) emits, for every character
of a (valid-UTF-8) Go string: `\"` and `\\` for quote and backslash;
`\n`, `\r`, `\t` for those control characters; `\u00xx` (lower-case hex)
for the remaining control characters and for `<`, `>`, `&`;
` `/` ` for those two separators; and the character itself
otherwise. -/

/-- Lower-case hex digit for a value below 16 (as Go `encoding/json` emits). -/
def hexDig (n : Nat) : Char :=
  if n < 10 then Char.ofNat (48 + n) else Char.ofNat (87 + n)

/-- Value of a hex digit character (upper or lower case), `none` otherwise. -/
def hexVal (c : Char) : Option Nat :=
  if 48 ≤ c.toNat ∧ c.toNat ≤ 57 then some (c.toNat - 48)
  else if 97 ≤ c.toNat ∧ c.toNat ≤ 102 then some (c.toNat - 87)
  else if 65 ≤ c.toNat ∧ c.toNat ≤ 70 then some (c.toNat - 55)
  else none

/-- Four lower-case hex digits for a value below 0x10000. -/
def toHex4 (n : Nat) : List Char :=
  [hexDig (n / 4096 % 16), hexDig (n / 256 % 16), hexDig (n / 16 % 16), hexDig (n % 16)]

/-- Parse four hex digits off the front of a character list. -/
def parseHex4 : List Char → Option (Nat × List Char)
  | a :: b :: c :: d :: rest =>
    (hexVal a).bind fun va =>
      (hexVal b).bind fun vb =>
        (hexVal c).bind fun vc =>
          (hexVal d).map fun vd =>
            (((va * 16 + vb) * 16 + vc) * 16 + vd, rest)
  | _ => none

theorem hexVal_hexDig : ∀ n < 16, hexVal (hexDig n) = some n := by decide

theorem parseHex4_toHex4 (n : Nat) (hn : n < 65536) (t : List Char) :
    parseHex4 (toHex4 n ++ t) = some (n, t) := by
  have h1 : n / 4096 % 16 < 16 := Nat.mod_lt _ (by norm_num)
  have h2 : n / 256 % 16 < 16 := Nat.mod_lt _ (by norm_num)
  have h3 : n / 16 % 16 < 16 := Nat.mod_lt _ (by norm_num)
  have h4 : n % 16 < 16 := Nat.mod_lt _ (by norm_num)
  have hq : n / 4096 < 16 := by omega
  simp only [toHex4, List.cons_append, List.nil_append, parseHex4,
    hexVal_hexDig _ h1, hexVal_hexDig _ h2, hexVal_hexDig _ h3, hexVal_hexDig _ h4,
    Option.bind_some, Option.map_some, Option.some_bind, Option.map_some']
  have he : n / 4096 % 16 = n / 4096 := Nat.mod_eq_of_lt hq
  rw [he]
  have : (n / 4096 * 16 + n / 256 % 16) * 16 + n / 16 % 16 = n / 16 := by omega
  rw [this]
  have : n / 16 * 16 + n % 16 = n := by omega
  rw [this]

/-- One character of Go `encoding/json` string escaping (HTML escaping on,
as in the default `json.Marshal` used by `generateID`). -/
def escapeChar (c : Char) : List Char :=
  if c = '"' then ['\\', '"']
  else if c = '\\' then ['\\', '\\']
  else if c = '\n' then ['\\', 'n']
  else if c = '\r' then ['\\', 'r']
  else if c = '\t' then ['\\', 't']
  else if c.toNat < 32 ∨ c = '<' ∨ c = '>' ∨ c = '&' then '\\' :: 'u' :: toHex4 c.toNat
  else if c.toNat = 8232 ∨ c.toNat = 8233 then '\\' :: 'u' :: toHex4 c.toNat
  else [c]

/-- Go JSON escaping of a whole string body. -/
def escapeList (s : List Char) : List Char := (s.map escapeChar).flatten

/-- The single-character escapes accepted after a backslash by the JSON
string scanner of `encoding/json` (`unquote`). -/
def unescSimple (e : Char) : Option Char :=
  if e = '"' then some '"'
  else if e = '\\' then some '\\'
  else if e = '/' then some '/'
  else if e = 'b' then some (Char.ofNat 8)
  else if e = 'f' then some (Char.ofNat 12)
  else if e = 'n' then some '\n'
  else if e = 'r' then some '\r'
  else if e = 't' then some '\t'
  else none

/-- Prepend a character to the parsed body of a string-scanner result. -/
def qsCons (c : Char) : Option (List Char × List Char) → Option (List Char × List Char)
  | none => none
  | some (s, t) => some (c :: s, t)

theorem parseHex4_length {l : List Char} {n : Nat} {r : List Char} :
    parseHex4 l = some (n, r) → l.length = r.length + 4 := by
  intro h
  match l with
  | [] => simp [parseHex4] at h
  | [a] => simp [parseHex4] at h
  | [a, b] => simp [parseHex4] at h
  | [a, b, c] => simp [parseHex4] at h
  | a :: b :: c :: d :: rest =>
    simp only [parseHex4] at h
    cases hva : hexVal a <;> cases hvb : hexVal b <;> cases hvc : hexVal c <;>
      cases hvd : hexVal d <;> simp [hva, hvb, hvc, hvd] at h
    obtain ⟨-, hr⟩ := h
    subst hr
    simp

/-- The JSON string-body scanner: consumes characters up to the closing
quote, undoing the escapes of `encoding/json`, and returns the body together
with the rest of the input (models `json.Unmarshal`'s string unquoting). -/
def parseQS : List Char → Option (List Char × List Char)
  | [] => none
  | c :: rest =>
    if c = '"' then some ([], rest)
    else if c = '\\' then
      match rest with
      | [] => none
      | e :: rest2 =>
        if e = 'u' then
          match hh : parseHex4 rest2 with
          | none => none
          | some (n, rest3) => qsCons (Char.ofNat n) (parseQS rest3)
        else
          match unescSimple e with
          | none => none
          | some u => qsCons u (parseQS rest2)
    else qsCons c (parseQS rest)
  termination_by l => l.length
  decreasing_by
  all_goals first
  | (have hlen := parseHex4_length hh; simp_all; omega)
  | (simp; omega)
  | simp

theorem parseQS_quote (t : List Char) : parseQS ('"' :: t) = some ([], t) := by
  conv_lhs => rw [parseQS.eq_def]
  simp

theorem parseQS_cons_lit (c : Char) (t : List Char) (h1 : c ≠ '"') (h2 : c ≠ '\\') :
    parseQS (c :: t) = qsCons c (parseQS t) := by
  conv_lhs => rw [parseQS.eq_def]
  simp [h1, h2]

theorem parseQS_u (h4 : List Char) (t : List Char)
    (hp : parseHex4 (h4 ++ t) = some (n, t)) :
    parseQS ('\\' :: 'u' :: (h4 ++ t)) = qsCons (Char.ofNat n) (parseQS t) := by
  simp only [parseQS, reduceIte]
  split
  · rename_i hq
    exact absurd hq (by decide)
  · split
    · rename_i heq2
      rw [hp] at heq2
      simp at heq2
    · rename_i n2 rest3 heq2
      rw [hp] at heq2
      cases heq2
      rfl

theorem parseQS_escapeChar (c : Char) (t : List Char) :
    parseQS (escapeChar c ++ t) = qsCons c (parseQS t) := by
  by_cases h1 : c = '"'
  · subst h1; simp [escapeChar, parseQS, unescSimple]
  by_cases h2 : c = '\\'
  · subst h2; simp [escapeChar, parseQS, unescSimple]
  by_cases h3 : c = '\n'
  · subst h3; simp [escapeChar, h1, h2, parseQS, unescSimple]
  by_cases h4 : c = '\r'
  · subst h4; simp [escapeChar, h1, h2, h3, parseQS, unescSimple]
  by_cases h5 : c = '\t'
  · subst h5; simp [escapeChar, h1, h2, h3, h4, parseQS, unescSimple]
  by_cases h6 : c.toNat < 32 ∨ c = '<' ∨ c = '>' ∨ c = '&'
  · have hlt : c.toNat < 65536 := by
      rcases h6 with h | h | h | h
      · omega
      all_goals subst h; decide
    have hesc : escapeChar c ++ t = '\\' :: 'u' :: (toHex4 c.toNat ++ t) := by
      simp [escapeChar, h1, h2, h3, h4, h5, h6]
    rw [hesc, parseQS_u _ _ (parseHex4_toHex4 c.toNat hlt t), Char.ofNat_toNat]
  by_cases h7 : c.toNat = 8232 ∨ c.toNat = 8233
  · have hlt : c.toNat < 65536 := by omega
    have hesc : escapeChar c ++ t = '\\' :: 'u' :: (toHex4 c.toNat ++ t) := by
      simp [escapeChar, h1, h2, h3, h4, h5, h6, h7]
    rw [hesc, parseQS_u _ _ (parseHex4_toHex4 c.toNat hlt t), Char.ofNat_toNat]
  · have hesc : escapeChar c ++ t = c :: t := by
      simp [escapeChar, h1, h2, h3, h4, h5, h6, h7]
    rw [hesc, parseQS_cons_lit c t h1 h2]

theorem parseQS_escapeList (s t : List Char) :
    parseQS (escapeList s ++ '"' :: t) = some (s, t) := by
  induction s with
  | nil =>
    show parseQS ('"' :: t) = some ([], t)
    exact parseQS_quote t
  | cons c s ih =>
    have hstep : escapeList (c :: s) = escapeChar c ++ escapeList s := by
      simp [escapeList]
    rw [hstep, List.append_assoc, parseQS_escapeChar, ih]
    rfl


/-! ## UTF-8, as used by Go to store strings and by `json.Marshal` output -/

/-- UTF-8 bytes of one Unicode scalar value. -/
def utf8EncodeChar (c : Char) : List Nat :=
  let n := c.toNat
  if n < 128 then [n]
  else if n < 2048 then [192 + n / 64, 128 + n % 64]
  else if n < 65536 then [224 + n / 4096, 128 + n / 64 % 64, 128 + n % 64]
  else [240 + n / 262144, 128 + n / 4096 % 64, 128 + n / 64 % 64, 128 + n % 64]

/-- UTF-8 bytes of a string. -/
def utf8Encode (s : List Char) : List Nat := (s.map utf8EncodeChar).flatten

/-- Whether a byte is a UTF-8 continuation byte. -/
def isCont (b : Nat) : Bool := 128 ≤ b ∧ b < 192

/-- Decode one UTF-8 sequence off the front of a byte list. -/
def decodeOne : List Nat → Option (Char × List Nat)
  | [] => none
  | b :: rest =>
    if b < 128 then some (Char.ofNat b, rest)
    else if b < 192 then none
    else if b < 224 then
      match rest with
      | b1 :: rest1 =>
        if isCont b1 then some (Char.ofNat ((b - 192) * 64 + (b1 - 128)), rest1) else none
      | [] => none
    else if b < 240 then
      match rest with
      | b1 :: b2 :: rest2 =>
        if isCont b1 ∧ isCont b2 then
          some (Char.ofNat (((b - 224) * 64 + (b1 - 128)) * 64 + (b2 - 128)), rest2)
        else none
      | _ => none
    else if b < 248 then
      match rest with
      | b1 :: b2 :: b3 :: rest3 =>
        if isCont b1 ∧ isCont b2 ∧ isCont b3 then
          some (Char.ofNat ((((b - 240) * 64 + (b1 - 128)) * 64 + (b2 - 128)) * 64
            + (b3 - 128)), rest3)
        else none
      | _ => none
    else none

/-- Fuel-driven UTF-8 decoding loop (the fuel is an upper bound on the number
of characters still to decode; `utf8Decode` supplies enough). -/
def utf8DecodeGo : Nat → List Nat → Option (List Char)
  | _, [] => some []
  | 0, _ :: _ => none
  | fuel + 1, b :: rest =>
    match decodeOne (b :: rest) with
    | none => none
    | some (c, r2) => (utf8DecodeGo fuel r2).map (fun s => c :: s)

/-- UTF-8 decoding of a byte list. -/
def utf8Decode (l : List Nat) : Option (List Char) := utf8DecodeGo l.length l

theorem char_toNat_lt (c : Char) : c.toNat < 1114112 := by
  have h := c.valid
  rcases h with h | ⟨h1, h2⟩
  · have : c.toNat < 55296 := h
    omega
  · exact h2

theorem decodeOne_encodeChar (c : Char) (t : List Nat) :
    decodeOne (utf8EncodeChar c ++ t) = some (c, t) := by
  have hc := char_toNat_lt c
  unfold utf8EncodeChar
  by_cases h1 : c.toNat < 128
  · simp only [h1, if_pos, List.cons_append, List.nil_append]
    unfold decodeOne
    simp [h1, Char.ofNat_toNat]
  by_cases h2 : c.toNat < 2048
  · simp only [h1, h2, if_neg, if_pos, List.cons_append, List.nil_append, reduceIte]
    unfold decodeOne
    have hm : c.toNat % 64 < 64 := Nat.mod_lt _ (by norm_num)
    have hb0a : ¬(192 + c.toNat / 64 < 128) := by omega
    have hb0b : ¬(192 + c.toNat / 64 < 192) := by omega
    have hb0c : 192 + c.toNat / 64 < 224 := by omega
    have hcont : isCont (128 + c.toNat % 64) = true := by
      simp only [isCont]
      simp
      omega
    simp only [hb0a, hb0b, hb0c, hcont, if_true, if_false, reduceIte]
    have hval : (192 + c.toNat / 64 - 192) * 64 + (128 + c.toNat % 64 - 128) = c.toNat := by
      omega
    rw [hval, Char.ofNat_toNat]
  by_cases h3 : c.toNat < 65536
  · simp only [h1, h2, h3, if_neg, if_pos, List.cons_append, List.nil_append, reduceIte]
    unfold decodeOne
    have hq : c.toNat / 4096 < 16 := by omega
    have hm1 : c.toNat / 64 % 64 < 64 := Nat.mod_lt _ (by norm_num)
    have hm2 : c.toNat % 64 < 64 := Nat.mod_lt _ (by norm_num)
    have hb0a : ¬(224 + c.toNat / 4096 < 128) := by omega
    have hb0b : ¬(224 + c.toNat / 4096 < 192) := by omega
    have hb0c : ¬(224 + c.toNat / 4096 < 224) := by omega
    have hb0d : 224 + c.toNat / 4096 < 240 := by omega
    have hcont1 : isCont (128 + c.toNat / 64 % 64) = true := by
      simp only [isCont]
      simp
      omega
    have hcont2 : isCont (128 + c.toNat % 64) = true := by
      simp only [isCont]
      simp
      omega
    simp only [hb0a, hb0b, hb0c, hb0d, hcont1, hcont2, if_true, if_false, reduceIte,
      and_self]
    have hval : ((224 + c.toNat / 4096 - 224) * 64 + (128 + c.toNat / 64 % 64 - 128)) * 64
        + (128 + c.toNat % 64 - 128) = c.toNat := by
      have e1 : c.toNat / 4096 * 64 + c.toNat / 64 % 64 = c.toNat / 64 := by omega
      have e2 : c.toNat / 64 * 64 + c.toNat % 64 = c.toNat := by omega
      omega
    rw [hval, Char.ofNat_toNat]
  · simp only [h1, h2, h3, if_neg, List.cons_append, List.nil_append, reduceIte]
    unfold decodeOne
    have hq : c.toNat / 262144 < 5 := by omega
    have hm1 : c.toNat / 4096 % 64 < 64 := Nat.mod_lt _ (by norm_num)
    have hm2 : c.toNat / 64 % 64 < 64 := Nat.mod_lt _ (by norm_num)
    have hm3 : c.toNat % 64 < 64 := Nat.mod_lt _ (by norm_num)
    have hb0a : ¬(240 + c.toNat / 262144 < 128) := by omega
    have hb0b : ¬(240 + c.toNat / 262144 < 192) := by omega
    have hb0c : ¬(240 + c.toNat / 262144 < 224) := by omega
    have hb0d : ¬(240 + c.toNat / 262144 < 240) := by omega
    have hb0e : 240 + c.toNat / 262144 < 248 := by omega
    have hcont1 : isCont (128 + c.toNat / 4096 % 64) = true := by
      simp only [isCont]
      simp
      omega
    have hcont2 : isCont (128 + c.toNat / 64 % 64) = true := by
      simp only [isCont]
      simp
      omega
    have hcont3 : isCont (128 + c.toNat % 64) = true := by
      simp only [isCont]
      simp
      omega
    simp only [hb0a, hb0b, hb0c, hb0d, hb0e, hcont1, hcont2, hcont3, if_true, if_false,
      reduceIte, and_self]
    have hval : (((240 + c.toNat / 262144 - 240) * 64 + (128 + c.toNat / 4096 % 64 - 128))
        * 64 + (128 + c.toNat / 64 % 64 - 128)) * 64 + (128 + c.toNat % 64 - 128)
        = c.toNat := by
      have e1 : c.toNat / 262144 * 64 + c.toNat / 4096 % 64 = c.toNat / 4096 := by omega
      have e2 : c.toNat / 4096 * 64 + c.toNat / 64 % 64 = c.toNat / 64 := by omega
      have e3 : c.toNat / 64 * 64 + c.toNat % 64 = c.toNat := by omega
      omega
    rw [hval, Char.ofNat_toNat]

theorem utf8EncodeChar_ne_nil (c : Char) : utf8EncodeChar c ≠ [] := by
  unfold utf8EncodeChar
  dsimp only
  split_ifs <;> simp

theorem utf8DecodeGo_encode :
    ∀ (s : List Char) (fuel : Nat), s.length ≤ fuel →
      utf8DecodeGo fuel (utf8Encode s) = some s := by
  intro s
  induction s with
  | nil =>
    intro fuel _
    simp only [utf8Encode, List.map_nil, List.flatten_nil]
    cases fuel <;> rfl
  | cons c s ih =>
    intro fuel hf
    have hstep : utf8Encode (c :: s) = utf8EncodeChar c ++ utf8Encode s := by
      simp [utf8Encode]
    obtain ⟨b, bs, hb⟩ : ∃ b bs, utf8EncodeChar c = b :: bs := by
      cases hcc : utf8EncodeChar c with
      | nil => exact absurd hcc (utf8EncodeChar_ne_nil c)
      | cons b bs => exact ⟨b, bs, rfl⟩
    cases fuel with
    | zero => simp at hf
    | succ f =>
      have hlist : utf8Encode (c :: s) = b :: (bs ++ utf8Encode s) := by
        rw [hstep, hb]; rfl
      rw [hlist]
      have hdec : decodeOne (b :: (bs ++ utf8Encode s)) = some (c, utf8Encode s) := by
        have := decodeOne_encodeChar c (utf8Encode s)
        rw [hb] at this
        simpa using this
      simp only [utf8DecodeGo, hdec]
      rw [ih f (by simpa using hf)]
      rfl

theorem utf8Decode_encode (s : List Char) : utf8Decode (utf8Encode s) = some s := by
  have hlen : s.length ≤ (utf8Encode s).length := by
    induction s with
    | nil => simp [utf8Encode]
    | cons c s ih =>
      have hstep : utf8Encode (c :: s) = utf8EncodeChar c ++ utf8Encode s := by
        simp [utf8Encode]
      rw [hstep]
      have h1 : 1 ≤ (utf8EncodeChar c).length := by
        cases hcc : utf8EncodeChar c with
        | nil => exact absurd hcc (utf8EncodeChar_ne_nil c)
        | cons b bs => simp
      simp only [List.length_append, List.length_cons]
      omega
  exact utf8DecodeGo_encode s (utf8Encode s).length hlen

theorem utf8Encode_lt (s : List Char) : ∀ b ∈ utf8Encode s, b < 256 := by
  intro b hb
  induction s with
  | nil => simp [utf8Encode] at hb
  | cons c s ih =>
    have hstep : utf8Encode (c :: s) = utf8EncodeChar c ++ utf8Encode s := by
      simp [utf8Encode]
    rw [hstep, List.mem_append] at hb
    rcases hb with hb | hb
    · have hc := char_toNat_lt c
      unfold utf8EncodeChar at hb
      by_cases h1 : c.toNat < 128
      · simp [h1] at hb; omega
      by_cases h2 : c.toNat < 2048
      · simp [h1, h2] at hb
        have hd : c.toNat / 64 < 32 := by omega
        have hm : c.toNat % 64 < 64 := Nat.mod_lt _ (by norm_num)
        rcases hb with hb | hb <;> omega
      by_cases h3 : c.toNat < 65536
      · simp [h1, h2, h3] at hb
        have hd : c.toNat / 4096 < 16 := by omega
        have hm1 : c.toNat / 64 % 64 < 64 := Nat.mod_lt _ (by norm_num)
        have hm2 : c.toNat % 64 < 64 := Nat.mod_lt _ (by norm_num)
        rcases hb with hb | hb | hb <;> omega
      · simp [h1, h2, h3] at hb
        have hd : c.toNat / 262144 < 5 := by omega
        have hm1 : c.toNat / 4096 % 64 < 64 := Nat.mod_lt _ (by norm_num)
        have hm2 : c.toNat / 64 % 64 < 64 := Nat.mod_lt _ (by norm_num)
        have hm3 : c.toNat % 64 < 64 := Nat.mod_lt _ (by norm_num)
        rcases hb with hb | hb | hb | hb <;> omega
    · exact ih hb


/-! ## Raw (unpadded) URL-safe base64, as in Go `base64.RawURLEncoding` -/

/-- The URL-safe base64 alphabet. -/
def b64Chars : List Char :=
  "ABCDEFGHIJKLMNOPQRSTUVWXYZabcdefghijklmnopqrstuvwxyz0123456789-_".data

/-- Alphabet character of a 6-bit group. -/
def b64Char (n : Nat) : Char := b64Chars.getD n 'A'

/-- Position scan used to invert the alphabet. -/
def b64ValGo : Nat → List Char → Char → Option Nat
  | _, [], _ => none
  | i, x :: xs, c => if x = c then some i else b64ValGo (i + 1) xs c

/-- 6-bit value of an alphabet character, `none` for a foreign character. -/
def b64Val (c : Char) : Option Nat := b64ValGo 0 b64Chars c

/-- `base64.RawURLEncoding.EncodeToString`: groups of three bytes become four
characters; a final group of one or two bytes becomes two or three characters
and no padding is emitted. -/
def b64Encode : List Nat → List Char
  | [] => []
  | [a] => [b64Char (a / 4), b64Char (a % 4 * 16)]
  | [a, b] => [b64Char (a / 4), b64Char (a % 4 * 16 + b / 16), b64Char (b % 16 * 4)]
  | a :: b :: c :: rest =>
    b64Char (a / 4) :: b64Char (a % 4 * 16 + b / 16) :: b64Char (b % 16 * 4 + c / 64) ::
      b64Char (c % 64) :: b64Encode rest

/-- `base64.RawURLEncoding.DecodeString` (an input of length `4k+1` is an
error, as in Go). -/
def b64Decode : List Char → Option (List Nat)
  | [] => some []
  | [_] => none
  | [c0, c1] =>
    (b64Val c0).bind fun v0 => (b64Val c1).map fun v1 => [v0 * 4 + v1 / 16]
  | [c0, c1, c2] =>
    (b64Val c0).bind fun v0 => (b64Val c1).bind fun v1 => (b64Val c2).map fun v2 =>
      [v0 * 4 + v1 / 16, v1 % 16 * 16 + v2 / 4]
  | c0 :: c1 :: c2 :: c3 :: rest =>
    (b64Val c0).bind fun v0 => (b64Val c1).bind fun v1 => (b64Val c2).bind fun v2 =>
      (b64Val c3).bind fun v3 => (b64Decode rest).map fun bs =>
        (v0 * 4 + v1 / 16) :: (v1 % 16 * 16 + v2 / 4) :: (v2 % 4 * 64 + v3) :: bs

theorem b64Val_b64Char : ∀ n < 64, b64Val (b64Char n) = some n := by decide

theorem b64Decode_encode :
    ∀ l : List Nat, (∀ x ∈ l, x < 256) → b64Decode (b64Encode l) = some l
  | [], _ => rfl
  | [a], h => by
    have ha : a < 256 := h a (by simp)
    have h0 : a / 4 < 64 := by omega
    have h1 : a % 4 * 16 < 64 := by omega
    simp only [b64Encode, b64Decode, b64Val_b64Char _ h0, b64Val_b64Char _ h1,
      Option.some_bind, Option.bind_some, Option.map_some']
    have : a / 4 * 4 + a % 4 * 16 / 16 = a := by omega
    rw [this]
  | [a, b], h => by
    have ha : a < 256 := h a (by simp)
    have hb : b < 256 := h b (by simp)
    have h0 : a / 4 < 64 := by omega
    have h1 : a % 4 * 16 + b / 16 < 64 := by omega
    have h2 : b % 16 * 4 < 64 := by omega
    simp only [b64Encode, b64Decode, b64Val_b64Char _ h0, b64Val_b64Char _ h1,
      b64Val_b64Char _ h2, Option.some_bind, Option.bind_some, Option.map_some']
    have e0 : (a / 4) * 4 + (a % 4 * 16 + b / 16) / 16 = a := by omega
    have e1 : (a % 4 * 16 + b / 16) % 16 * 16 + b % 16 * 4 / 4 = b := by omega
    rw [e0, e1]
  | a :: b :: c :: rest, h => by
    have ha : a < 256 := h a (by simp)
    have hb : b < 256 := h b (by simp)
    have hc : c < 256 := h c (by simp)
    have h0 : a / 4 < 64 := by omega
    have h1 : a % 4 * 16 + b / 16 < 64 := by omega
    have h2 : b % 16 * 4 + c / 64 < 64 := by omega
    have h3 : c % 64 < 64 := by omega
    have ih := b64Decode_encode rest (fun x hx => h x (by simp [hx]))
    simp only [b64Encode, b64Decode, b64Val_b64Char _ h0, b64Val_b64Char _ h1,
      b64Val_b64Char _ h2, b64Val_b64Char _ h3, Option.some_bind, Option.bind_some, ih,
      Option.map_some']
    have e0 : (a / 4) * 4 + (a % 4 * 16 + b / 16) / 16 = a := by omega
    have e1 : (a % 4 * 16 + b / 16) % 16 * 16 + (b % 16 * 4 + c / 64) / 4 = b := by omega
    have e2 : (b % 16 * 4 + c / 64) % 4 * 64 + c % 64 = c := by omega
    rw [e0, e1, e2]

/-! ## The identity codec (`generateID` / `decodeID`, `cmd/resource/utils.go`)

The `ID` struct and the two functions mirror the source; `json.Marshal` of
the `ID` struct (plain string fields, no `omitempty`, so every field is
always emitted, in declaration order) is `renderID`, and the part of
`json.Unmarshal` reachable on such output is `parseIDChars`. -/

/-- `ID` struct for the CFN physical resource (field order as declared). -/
structure ID where
  ClusterID : String
  KubeConfig : String
  Region : String
  Name : String
  Namespace : String
  deriving Repr, DecidableEq

/-- Isolation configuration (`VPCConfiguration` of the schema model). -/
structure VPCConfiguration where
  SecurityGroupIds : List String
  SubnetIds : List String
  deriving Repr, DecidableEq

/-- Modelled from the spec: the schema-generated desired-state `Model`
(its Go definition is generated from the resource schema and is not part of
the embedded sources); only the fields read by the embedded functions are
carried. -/
structure Model where
  ClusterID : Option String := none
  KubeConfig : Option String := none
  Name : Option String := none
  Namespace : Option String := none
  TimeOut : Option Int := none
  VPCConfiguration : Option VPCConfiguration := none
  ID : Option String := none
  deriving Repr, DecidableEq

def keyCID : List Char := "\x7b\"ClusterID\":\"".data
def keyKC : List Char := ",\"KubeConfig\":\"".data
def keyRG : List Char := ",\"Region\":\"".data
def keyNM : List Char := ",\"Name\":\"".data
def keyNS : List Char := ",\"Namespace\":\"".data

/-- `json.Marshal` output for an `ID` value. -/
def renderID (i : ID) : List Char :=
  keyCID ++ escapeList i.ClusterID.data ++ '"' ::
    (keyKC ++ escapeList i.KubeConfig.data ++ '"' ::
      (keyRG ++ escapeList i.Region.data ++ '"' ::
        (keyNM ++ escapeList i.Name.data ++ '"' ::
          (keyNS ++ escapeList i.Namespace.data ++ '"' :: "\x7d".data))))

/-- Consume an expected literal off the front of the input. -/
def expectLit : List Char → List Char → Option (List Char)
  | [], l => some l
  | _ :: _, [] => none
  | x :: xs, y :: ys => if x = y then expectLit xs ys else none

/-- `json.Unmarshal` into an `ID`, on the grammar `json.Marshal` produces for
it (the five string fields in declaration order; string bodies are unescaped
by `parseQS`). -/
def parseIDChars (l : List Char) : Option ID :=
  (expectLit keyCID l).bind fun l1 =>
  (parseQS l1).bind fun p1 =>
  (expectLit keyKC p1.2).bind fun l2 =>
  (parseQS l2).bind fun p2 =>
  (expectLit keyRG p2.2).bind fun l3 =>
  (parseQS l3).bind fun p3 =>
  (expectLit keyNM p3.2).bind fun l4 =>
  (parseQS l4).bind fun p4 =>
  (expectLit keyNS p4.2).bind fun l5 =>
  (parseQS l5).bind fun p5 =>
  (expectLit "\x7d".data p5.2).map fun _ =>
    ⟨String.mk p1.1, String.mk p2.1, String.mk p3.1, String.mk p4.1, String.mk p5.1⟩

/-- `json.Marshal` + `base64.RawURLEncoding.EncodeToString`, the encoding
half of `generateID`. -/
def idEncode (i : ID) : String := String.mk (b64Encode (utf8Encode (renderID i)))

/-- `generateID` (`utils.go`): picks `ClusterID` first, else `KubeConfig`,
else errors; copies name, namespace and region; marshals and base64-encodes.
No other validation is performed. -/
def generateID (m : Model) (name region namesp : String) : Except String String :=
  match m.ClusterID with
  | some c => .ok (idEncode ⟨c, "", region, name, namesp⟩)
  | none =>
    match m.KubeConfig with
    | some k => .ok (idEncode ⟨"", k, region, name, namesp⟩)
    | none => .error "Either ClusterID or KubeConfig must be specified"

/-- `decodeID` (`utils.go`): base64-decode then unmarshal; `none` models the
error returns. -/
def decodeID (id : String) : Option ID :=
  (b64Decode id.data).bind fun bytes =>
    (utf8Decode bytes).bind fun chars =>
      parseIDChars chars

theorem expectLit_append (lit t : List Char) : expectLit lit (lit ++ t) = some t := by
  induction lit with
  | nil => rfl
  | cons x xs ih => simp [expectLit, ih]

theorem mk_data (s : String) : String.mk s.data = s := rfl

theorem parseIDChars_render (i : ID) : parseIDChars (renderID i) = some i := by
  unfold parseIDChars renderID
  rw [List.append_assoc, expectLit_append]
  simp only [Option.bind_some, Option.some_bind]
  rw [parseQS_escapeList]
  simp only [Option.bind_some, Option.some_bind]
  rw [List.append_assoc, expectLit_append]
  simp only [Option.bind_some, Option.some_bind]
  rw [parseQS_escapeList]
  simp only [Option.bind_some, Option.some_bind]
  rw [List.append_assoc, expectLit_append]
  simp only [Option.bind_some, Option.some_bind]
  rw [parseQS_escapeList]
  simp only [Option.bind_some, Option.some_bind]
  rw [List.append_assoc, expectLit_append]
  simp only [Option.bind_some, Option.some_bind]
  rw [parseQS_escapeList]
  simp only [Option.bind_some, Option.some_bind]
  rw [List.append_assoc, expectLit_append]
  simp only [Option.bind_some, Option.some_bind]
  rw [parseQS_escapeList]
  simp only [Option.bind_some, Option.some_bind]
  have hlast : expectLit "\x7d".data "\x7d".data = some [] := by decide
  rw [hlast]
  simp [mk_data]

theorem decodeID_idEncode (i : ID) : decodeID (idEncode i) = some i := by
  unfold decodeID idEncode
  have hdata : (String.mk (b64Encode (utf8Encode (renderID i)))).data
      = b64Encode (utf8Encode (renderID i)) := rfl
  rw [hdata, b64Decode_encode _ (utf8Encode_lt (renderID i))]
  simp only [Option.some_bind]
  rw [utf8Decode_encode]
  simp only [Option.some_bind]
  exact parseIDChars_render i

/-- C1. Physical-ID round-trip: for a model with exactly one locator set and
any name, region and namespace, `generateID` succeeds, and `decodeID` of its
output recovers exactly the locator (the absent one as the empty string),
region, name and namespace that went in. -/
theorem physical_id_roundtrip (m : Model) (name region namesp : String)
    (h : (∃ c, m.ClusterID = some c ∧ m.KubeConfig = none) ∨
         (m.ClusterID = none ∧ ∃ k, m.KubeConfig = some k)) :
    ∃ s, generateID m name region namesp = .ok s ∧
      decodeID s = some
        ⟨m.ClusterID.getD "", m.KubeConfig.getD "", region, name, namesp⟩ := by
  rcases h with ⟨c, hc, hk⟩ | ⟨hc, k, hk⟩
  · refine ⟨idEncode ⟨c, "", region, name, namesp⟩, ?_, ?_⟩
    · simp [generateID, hc]
    · rw [decodeID_idEncode, hc, hk]
      rfl
  · refine ⟨idEncode ⟨"", k, region, name, namesp⟩, ?_, ?_⟩
    · simp [generateID, hc, hk]
    · rw [decodeID_idEncode, hc, hk]
      rfl

/-- Witness for C1 at a concrete model. -/
theorem physical_id_roundtrip_witness :
    ∃ s, generateID { ClusterID := some "eks" } "Test" "eu-west-1" "default" = .ok s ∧
      decodeID s = some ⟨"eks", "", "eu-west-1", "Test", "default"⟩ := by
  have h := physical_id_roundtrip { ClusterID := some "eks" } "Test" "eu-west-1" "default"
    (Or.inl ⟨"eks", rfl, rfl⟩)
  simpa using h

/-- C2 (code evaluation). Contrary to the documented contract and to
`TestGenerateID`, `generateID` in the source succeeds when both locators are
set (it silently uses `ClusterID`) and succeeds on empty name/namespace/
region; it only errors when neither locator is set. -/
theorem generateID_missing_validation :
    generateID { ClusterID := some "eks", KubeConfig := some "arn" }
        "Test" "eu-west-1" "default"
      = .ok (idEncode ⟨"eks", "", "eu-west-1", "Test", "default"⟩) ∧
    generateID { ClusterID := some "eks" } "" "eu-west-1" "default"
      = .ok (idEncode ⟨"eks", "", "eu-west-1", "", "default"⟩) ∧
    generateID { } "Test" "eu-west-1" "default"
      = .error "Either ClusterID or KubeConfig must be specified" := by
  exact ⟨rfl, rfl, rfl⟩


/-! ## Stages, progress events and the timeout authority
(`cmd/resource/action.go`, `cmd/resource/events.go`, `checkTimeOut` of
`utils.go`) -/

/-- The reconciliation stages. -/
inductive Stage where
  | InitStage
  | ReleaseStabilize
  | UninstallRelease
  | LambdaStabilize
  | CompleteStage
  | NoStage
  deriving Repr, DecidableEq

open Stage

/-- String value of a stage (as in the Go string-typed constants). -/
def stageStr : Stage → String
  | .InitStage => "Init"
  | .ReleaseStabilize => "ReleaseStabilize"
  | .UninstallRelease => "UninstallRelease"
  | .LambdaStabilize => "LambdaStabilize"
  | .CompleteStage => "Complete"
  | .NoStage => "NoStage"

/-- The driver actions (`Action` string constants). -/
inductive Action where
  | InstallRelease
  | UpdateRelease
  | CheckRelease
  | GetPending
  | GetResources
  | UninstallRelease
  | ListRelease
  deriving Repr, DecidableEq

/-- Operation status of a `handler.ProgressEvent`. -/
inductive OpStatus where
  | inProgress
  | success
  | failed
  deriving Repr, DecidableEq

/-- The fields of `handler.ProgressEvent` that `events.go` populates (the
callback context's `StartTime` entry, an environment echo, is not carried). -/
structure ProgressEvent where
  OperationStatus : OpStatus
  Message : String := ""
  ResourceModel : Option Model := none
  CallbackStage : Option Stage := none
  CallbackName : Option String := none
  CallbackDelaySeconds : Nat := 0
  deriving Repr, DecidableEq

/-- `errorEvent` (`events.go`). -/
def errorEvent (model : Option Model) (err : String) : ProgressEvent :=
  { OperationStatus := .failed, Message := err, ResourceModel := model }

/-- `successEvent` (`events.go`). -/
def successEvent (model : Model) : ProgressEvent :=
  { OperationStatus := .success, ResourceModel := some model }

/-- `inProgressEvent` (`events.go`): callback delay 30s, stage and release
name recorded in the callback context. -/
def inProgressEvent (model : Model) (stage : Stage) : ProgressEvent :=
  { OperationStatus := .inProgress
    Message := stageStr stage ++ " in progress\n"
    ResourceModel := some model
    CallbackStage := some stage
    CallbackName := some (model.Name.getD "")
    CallbackDelaySeconds := 30 }

/-- `strings.Join`. -/
def goJoin : List String → String → String
  | [], _ => ""
  | [x], _ => x
  | x :: xs, sep => x ++ sep ++ goJoin xs sep

/-- Timeout budget in seconds: `TimeOut` minutes when set, else the
`defaultTimeOut` of 60 minutes (`checkTimeOut`, `utils.go`). -/
def timeoutBudgetSeconds : Option Int → ℚ
  | none => 3600
  | some t => (t : ℚ) * 60

/-- `checkTimeOut(startTime, timeOut)`: true iff the elapsed seconds since
the recorded start time reach the budget (the elapsed duration is passed
directly; the Go code reads it from the `StartTime` timestamp). -/
def checkTimeOut (elapsedSeconds : ℚ) (timeOut : Option Int) : Bool :=
  timeoutBudgetSeconds timeOut ≤ elapsedSeconds

/-- Fixed head of the timeout failure message. -/
def timeoutMsgHead : String := "resource creation timed out\n, LastKnownErrors: "

/-- The timeout failure message: head plus the accumulated diagnostics
joined by newline-space. -/
def timeoutMessage (lke : List String) : String := timeoutMsgHead ++ goJoin lke "\n "

/-- `makeEvent` (`events.go`). The two ambient reads of the Go code (the
`StartTime` environment variable and the process-global `LastKnownErrors`
list) are explicit parameters. -/
def makeEvent (model : Model) (nextStage : Stage) (err : Option String)
    (elapsedSeconds : ℚ) (lastKnownErrors : List String) : ProgressEvent :=
  let timeout := checkTimeOut elapsedSeconds model.TimeOut
  if timeout = true ∧ nextStage ≠ CompleteStage then
    errorEvent none (timeoutMessage lastKnownErrors)
  else
    match err with
    | some e => errorEvent (some model) e
    | none =>
      if nextStage = CompleteStage then successEvent model
      else inProgressEvent model nextStage

/-- C6. Central timeout authority: whenever the elapsed time reaches the
configured budget (`TimeOut` minutes; 3600 seconds when absent, i.e. the
60-minute default) and the requested next stage is not `Complete`,
`makeEvent` returns a terminal Failed event carrying the accumulated
diagnostics joined into its message — regardless of the error argument and
of the rest of the model. -/
theorem makeEvent_timeout_authority :
    timeoutBudgetSeconds none = 3600 ∧
    ∀ (model : Model) (nextStage : Stage) (err : Option String) (elapsed : ℚ)
      (lke : List String),
      timeoutBudgetSeconds model.TimeOut ≤ elapsed →
      nextStage ≠ CompleteStage →
      makeEvent model nextStage err elapsed lke
        = { OperationStatus := .failed
            Message := timeoutMsgHead ++ goJoin lke "\n "
            ResourceModel := none } := by
  refine ⟨rfl, ?_⟩
  intro model nextStage err elapsed lke ht hs
  have hchk : checkTimeOut elapsed model.TimeOut = true := by
    simp [checkTimeOut, ht]
  simp [makeEvent, hchk, hs, errorEvent, timeoutMessage]

/-- Witness for C6: one-minute budget, 60 elapsed seconds, a poll for
`ReleaseStabilize` with no error of its own still fails with the joined
diagnostics. -/
theorem makeEvent_timeout_authority_witness :
    makeEvent { TimeOut := some 1 } ReleaseStabilize none 60 ["errA", "errB"]
      = { OperationStatus := .failed
          Message := timeoutMsgHead ++ goJoin ["errA", "errB"] "\n "
          ResourceModel := none } :=
  makeEvent_timeout_authority.2 { TimeOut := some 1 } ReleaseStabilize none 60
    ["errA", "errB"] (by norm_num [timeoutBudgetSeconds]) (by decide)

/-! ## Release-engine uninstall and bridge teardown
(`HelmUninstall` of `helm.go`, `deleteFunction`/`functionNotExists` of
`lambda.go`, `AWSError` of `utils.go`, the `UninstallReleaseAction` case of
`initialize` and `lambdaDestroy` of `action.go`) -/

/-- A Go `error` value as the AWS SDK surfaces it: either an `awserr.Error`
with code, message and original error text, or a plain error string. -/
inductive GoErr where
  | awsErr (code msg orig : String)
  | plain (msg : String)
  deriving Repr, DecidableEq

/-- `lambda.ErrCodeResourceNotFoundException`. -/
def resourceNotFoundCode : String := "ResourceNotFoundException"

/-- `functionNotExists` (`lambda.go`): an `awserr.Error` whose code is
`ResourceNotFoundException`. -/
def functionNotExists : GoErr → Bool
  | .awsErr code _ _ => code = resourceNotFoundCode
  | .plain _ => false

/-- `AWSError` (`utils.go`): formats an `awserr.Error`; for any other
non-nil error returns its text; for a nil error the Go code calls
`err.Error()` on a nil interface and panics. -/
def awsError : Option GoErr → PanicOr String
  | none => .panics
  | some (.awsErr code msg orig) =>
    .res ("AWS Error: " ++ code ++ " - " ++ msg ++ " " ++ orig)
  | some (.plain msg) => .res msg

/-- `deleteFunction` (`lambda.go`): swallow `ResourceNotFoundException`,
otherwise pass the delete outcome through `AWSError`. `outcome = none`
models a delete call that returned no error. -/
def deleteFunction (outcome : Option GoErr) : PanicOr (Option String) :=
  match outcome with
  | some e =>
    if functionNotExists e then .res none
    else
      match awsError (some e) with
      | .panics => .panics
      | .res m => .res (some m)
  | none =>
    match awsError none with
    | .panics => .panics
    | .res m => .res (some m)

/-- First character-list is a prefix of the second. -/
def isPref : List Char → List Char → Bool
  | [], _ => true
  | _ :: _, [] => false
  | x :: xs, y :: ys => x = y && isPref xs ys

/-- Substring containment, the semantics of Go
`regexp.MustCompile("not found").MatchString`. -/
def containsSub (needle : List Char) : List Char → Bool
  | [] => needle.isEmpty
  | c :: rest => isPref needle (c :: rest) || containsSub needle rest

/-- `genericError` (`utils.go`) message construction. -/
def genericErrorMsg (source msg : String) : String :=
  "Error: At " ++ source ++ " - " ++ msg ++ " "

/-- `HelmUninstall` (`helm.go`): run the engine uninstall; an error whose
text contains `not found` is translated to success; any other error is
wrapped; a successful run returns success. -/
def HelmUninstall (engineOutcome : Except String Unit) : Option String :=
  match engineOutcome with
  | .ok _ => none
  | .error e =>
    if containsSub "not found".data e.data then none
    else some (genericErrorMsg "Helm Uninstall" e)

/-- `lambdaDestroy` (`action.go`): with no isolation configuration the
operation completes immediately; otherwise the bridge function is deleted
and a delete error fails the step. -/
def lambdaDestroy (model : Model) (deleteOutcome : Option GoErr)
    (elapsed : ℚ) (lke : List String) : PanicOr ProgressEvent :=
  if model.VPCConfiguration.isNone then
    .res (makeEvent model CompleteStage none elapsed lke)
  else
    match deleteFunction deleteOutcome with
    | .panics => .panics
    | .res (some e) => .res (makeEvent model NoStage (some e) elapsed lke)
    | .res none => .res (makeEvent model CompleteStage none elapsed lke)

/-- The `UninstallReleaseAction` case of `initialize` (`action.go`): decode
the physical ID, run the uninstall wrapper, and on success proceed to
`lambdaDestroy`; `uninstallErr` is the wrapper's result (`HelmUninstall` on
the direct path). -/
def uninstallActionStep (model : Model) (decodeRes : Option ID)
    (uninstallErr : Option String) (deleteOutcome : Option GoErr)
    (elapsed : ℚ) (lke : List String) : PanicOr ProgressEvent :=
  match decodeRes with
  | none => .res (makeEvent model NoStage (some "decode error") elapsed lke)
  | some _ =>
    match uninstallErr with
    | some e => .res (makeEvent model NoStage (some e) elapsed lke)
    | none => lambdaDestroy model deleteOutcome elapsed lke

/-- C5. Uninstall is idempotent for an absent release: an engine error whose
text contains `not found` makes `HelmUninstall` succeed, and the delete-path
driver then runs the bridge teardown and reports Complete (teardown itself
being benign: either no isolation configuration, or the bridge function is
already gone). -/
theorem uninstall_not_found_completes (e : String) (model : Model) (i : ID)
    (deleteOutcome : Option GoErr) (elapsed : ℚ) (lke : List String)
    (hnf : containsSub "not found".data e.data = true)
    (hteardown : model.VPCConfiguration.isNone = true ∨
      ∃ msg orig, deleteOutcome = some (.awsErr resourceNotFoundCode msg orig)) :
    HelmUninstall (.error e) = none ∧
    uninstallActionStep model (some i) (HelmUninstall (.error e)) deleteOutcome
        elapsed lke
      = .res (successEvent model) := by
  have hu : HelmUninstall (.error e) = none := by
    simp [HelmUninstall, hnf]
  refine ⟨hu, ?_⟩
  rw [hu]
  show lambdaDestroy model deleteOutcome elapsed lke = .res (successEvent model)
  have hmk : makeEvent model CompleteStage none elapsed lke = successEvent model := by
    simp [makeEvent]
  rcases hteardown with hz | ⟨msg, orig, hd⟩
  · simp [lambdaDestroy, hz, hmk]
  · subst hd
    have hdel : deleteFunction (some (.awsErr resourceNotFoundCode msg orig))
        = .res none := by
      simp [deleteFunction, functionNotExists]
    by_cases hz : model.VPCConfiguration.isNone
    · simp [lambdaDestroy, hz, hmk]
    · simp only [lambdaDestroy, hz, if_false, Bool.false_eq_true, reduceIte, hdel, hmk]

/-- Witness for C5: a concrete `release: not found` error, no isolation
configuration. -/
theorem uninstall_not_found_completes_witness :
    HelmUninstall (.error "uninstall: Release not loaded: x: release: not found")
      = none ∧
    uninstallActionStep { Name := some "x" } (some ⟨"eks", "", "r", "x", "d"⟩)
        (HelmUninstall (.error "uninstall: Release not loaded: x: release: not found"))
        none 0 []
      = .res (successEvent { Name := some "x" }) :=
  uninstall_not_found_completes "uninstall: Release not loaded: x: release: not found"
    { Name := some "x" } ⟨"eks", "", "r", "x", "d"⟩ none 0 [] (by decide) (Or.inl rfl)

/-- C7 (code evaluation). `deleteFunction` swallows
`ResourceNotFoundException` and returns an error for other failures, but on
a *successful* delete (`nil` error) it reaches `AWSError(nil)`, which calls
`Error()` on a nil interface and panics — contradicting `TestDeleteFunction`,
which expects `nil`. -/
theorem deleteFunction_outcomes :
    deleteFunction none = .panics ∧
    (∀ msg orig, deleteFunction (some (.awsErr resourceNotFoundCode msg orig))
      = .res none) ∧
    (∀ e : GoErr, functionNotExists e = false →
      ∃ m, deleteFunction (some e) = .res (some m)) := by
  refine ⟨rfl, fun msg orig => ?_, fun e hne => ?_⟩
  · simp [deleteFunction, functionNotExists]
  · cases e with
    | awsErr code msg orig =>
      refine ⟨"AWS Error: " ++ code ++ " - " ++ msg ++ " " ++ orig, ?_⟩
      simp [deleteFunction, hne, awsError]
    | plain msg =>
      refine ⟨msg, ?_⟩
      simp [deleteFunction, hne, awsError]

/-- Witness for C7's quantified parts at concrete errors. -/
theorem deleteFunction_outcomes_witness :
    deleteFunction (some (.awsErr resourceNotFoundCode "NotFound" "NotFound"))
      = .res none ∧
    ∃ m, deleteFunction (some (.awsErr "AccessDenied" "denied" "")) = .res (some m) :=
  ⟨deleteFunction_outcomes.2.1 "NotFound" "NotFound",
   deleteFunction_outcomes.2.2 (.awsErr "AccessDenied" "denied" "") (by decide)⟩


/-! ## Bridge (lambda) naming and stabilization
(`newLambdaResource`, `checklambdaState` of `lambda.go`; `initializeLambda`
and the caller gate of `initialize`, `action.go`) -/

/-- Lambda function states (`State` string constants; `unknown` carries any
other string reported by the service). -/
inductive State where
  | Pending
  | Active
  | Inactive
  | Failed
  | NotFound
  | unknown (s : String)
  deriving Repr, DecidableEq

/-- String value of a reported state. -/
def stateStr : State → String
  | .Pending => "Pending"
  | .Active => "Active"
  | .Inactive => "Inactive"
  | .Failed => "Failed"
  | .NotFound => "NotFound"
  | .unknown s => s

/-- `FunctionNamePrefix`. -/
def functionNamePref : String := "helm-provider-vpc-connector-"

/-- Modelled from the spec: `getHash`, the hash used in bridge naming
(`name = prefix + hash(join(security-group-ids) + join(subnet-ids) +
locator)`). Its Go implementation (an MD5 hex digest) is not among the
embedded sources; it is modelled as a fixed deterministic string hash
rendered in hex. -/
def getHash (s : String) : String :=
  let h := s.data.foldl (fun a c => (a * 31 + c.toNat) % 340282366920938463463374607431768211456) 7
  (Nat.toDigits 16 h).asString

/-- The fields of `lambdaResource` populated by `newLambdaResource`. -/
structure LambdaResourceM where
  roleArn : Option String := none
  nameSuffix : Option String := none
  vpcConfig : Option VPCConfiguration := none
  functionName : Option String := none
  functionFile : String := "k8svpc.zip"
  deriving Repr, DecidableEq

/-- `newLambdaResource` (`lambda.go`): with an isolation configuration the
name suffix is the hash of `locator-sgIds-subnetIds` (cluster locator wins,
else kubeconfig); with neither locator set the Go code dereferences the nil
`nameSuffix` and panics. `roleRes` is the outcome of `getCurrentRoleARN`
(`.ok none` when no STS client is passed); on its error the Go function
returns `nil`, modelled `.res none`. -/
def newLambdaResource (roleRes : Except String (Option String))
    (cluster kubeconfig : Option String) (vpc : Option VPCConfiguration) :
    PanicOr (Option LambdaResourceM) :=
  match vpc with
  | none =>
    match roleRes with
    | .error _ => .res none
    | .ok r => .res (some { roleArn := r })
  | some v =>
    let suffix := goJoin v.SecurityGroupIds "-" ++ "-" ++ goJoin v.SubnetIds "-"
    let nameSuffix : Option String :=
      match cluster with
      | some c => some (getHash (c ++ "-" ++ suffix))
      | none =>
        match kubeconfig with
        | some k => some (getHash (k ++ "-" ++ suffix))
        | none => none
    match nameSuffix with
    | none => .panics
    | some nsfx =>
      match roleRes with
      | .error _ => .res none
      | .ok r =>
        .res (some
          { roleArn := r
            nameSuffix := some nsfx
            vpcConfig := some v
            functionName := some (functionNamePref ++ nsfx) })

/-- C8. Bridge naming is a pure deterministic function of the locator and
the isolation configuration: the derived function name is the fixed prefix
plus the hash of the locator (cluster id first, else kubeconfig id) joined
with the security-group ids and subnet ids, so it is identical across calls
that agree on those inputs — in particular it does not depend on the
role-lookup outcome. -/
theorem bridge_name_deterministic (role1 role2 : Option String)
    (cluster kubeconfig : Option String) (v : VPCConfiguration)
    (hloc : cluster.isSome ∨ kubeconfig.isSome) :
    ∃ r1 r2,
      newLambdaResource (.ok role1) cluster kubeconfig (some v) = .res (some r1) ∧
      newLambdaResource (.ok role2) cluster kubeconfig (some v) = .res (some r2) ∧
      r1.functionName = r2.functionName ∧
      r1.functionName = some (functionNamePref ++ getHash
        (cluster.getD (kubeconfig.getD "") ++ "-" ++
          (goJoin v.SecurityGroupIds "-" ++ "-" ++ goJoin v.SubnetIds "-"))) := by
  cases cluster with
  | some c =>
    refine ⟨_, _, rfl, rfl, rfl, ?_⟩
    simp [newLambdaResource]
  | none =>
    cases kubeconfig with
    | some k =>
      refine ⟨_, _, rfl, rfl, rfl, ?_⟩
      simp [newLambdaResource]
    | none => simp at hloc

/-- Witness for C8: same cluster and isolation configuration, different role
outcomes, identical derived names. -/
theorem bridge_name_deterministic_witness :
    ∃ r1 r2,
      newLambdaResource (.ok (some "roleA")) (some "eks") none
          (some ⟨["sg-1"], ["subnet-1"]⟩) = .res (some r1) ∧
      newLambdaResource (.ok (some "roleB")) (some "eks") none
          (some ⟨["sg-1"], ["subnet-1"]⟩) = .res (some r2) ∧
      r1.functionName = r2.functionName ∧
      r1.functionName = some (functionNamePref ++ getHash
        ("eks" ++ "-" ++ (goJoin ["sg-1"] "-" ++ "-" ++ goJoin ["subnet-1"] "-"))) := by
  have h := bridge_name_deterministic (some "roleA") (some "roleB") (some "eks") none
    ⟨["sg-1"], ["subnet-1"]⟩ (Or.inl rfl)
  simpa using h

/-- `retryCount` (`action.go`). -/
def retryCount : Nat := 3

/-- The bounded polling loop inside `initializeLambda`: up to `fuel` polls of
`checklambdaState` (the `i`-th poll outcome is `polls i`), returning early on
an error or on `Active`, and giving up with `(false, nil)` when the bound is
exhausted. -/
def stabilizeLoop (polls : Nat → Except String State) : Nat → Nat → Bool × Option String
  | 0, _ => (false, none)
  | fuel + 1, i =>
    match polls i with
    | .error e => (false, some e)
    | .ok s => if s = State.Active then (true, none) else stabilizeLoop polls fuel (i + 1)

/-- `initializeLambda` (`action.go`), with the effectful collaborator
outcomes passed explicitly: the initial `checklambdaState` result `s0`, the
`createFunction` result, the `getFunction`/`updateFunction` results used in
the `Active` branch, and the stream of subsequent poll outcomes. -/
def initializeLambda (s0 : Except String State) (createRes : Option String)
    (getFnRes : Except String Unit) (updateRes : Option String)
    (polls : Nat → Except String State) (functionName : String) :
    Bool × Option String :=
  match s0 with
  | .error e => (false, some e)
  | .ok .NotFound =>
    match createRes with
    | some e => (false, some e)
    | none => stabilizeLoop polls retryCount 0
  | .ok .Active =>
    match getFnRes with
    | .error e => (false, some e)
    | .ok _ =>
      match updateRes with
      | some e => (false, some e)
      | none => (true, none)
  | .ok .Pending => stabilizeLoop polls retryCount 0
  | .ok s => (false, some (functionName ++ " not in desired state: " ++ stateStr s))

/-- The caller's handling of `initializeLambda` in `initialize` /
`checkReleaseStatus` (`action.go`): an error fails the step, `false` reports
`LambdaStabilize`, `true` continues (`none`). -/
def lambdaGate (r : Bool × Option String) (model : Model) (elapsed : ℚ)
    (lke : List String) : Option ProgressEvent :=
  match r with
  | (_, some e) => some (makeEvent model NoStage (some e) elapsed lke)
  | (false, none) => some (makeEvent model LambdaStabilize none elapsed lke)
  | (true, none) => none

theorem stabilizeLoop_exhausted (polls : Nat → Except String State) :
    ∀ (fuel i : Nat),
      (∀ j < fuel, ∃ s, polls (i + j) = .ok s ∧ s ≠ State.Active) →
      stabilizeLoop polls fuel i = (false, none) := by
  intro fuel
  induction fuel with
  | zero => intro i _; rfl
  | succ f ih =>
    intro i h
    obtain ⟨s, hs, hna⟩ := h 0 (by omega)
    simp only [Nat.add_zero] at hs
    simp only [stabilizeLoop, hs, if_neg hna]
    exact ih (i + 1) (fun j hj => by
      have := h (j + 1) (by omega)
      simpa [Nat.add_assoc, Nat.add_comm 1 j] using this)

theorem stabilizeLoop_congr (p q : Nat → Except String State) :
    ∀ (fuel i : Nat), (∀ j < fuel, p (i + j) = q (i + j)) →
      stabilizeLoop p fuel i = stabilizeLoop q fuel i := by
  intro fuel
  induction fuel with
  | zero => intro i _; rfl
  | succ f ih =>
    intro i h
    have h0 : p i = q i := by
      have := h 0 (by omega)
      simpa using this
    simp only [stabilizeLoop, h0]
    cases hq : q i with
    | error e => rfl
    | ok s =>
      by_cases hs : s = State.Active
      · simp [hs]
      · simp only [if_neg hs]
        exact ih (i + 1) (fun j hj => by
          have := h (j + 1) (by omega)
          simpa [Nat.add_assoc, Nat.add_comm 1 j] using this)

/-- C9. Bridge stabilization is bounded and give-up is not an error: from
`NotFound` (with a successful create) or `Pending`, at most `retryCount = 3`
polls are made (the result depends on no poll beyond the first three), and
if none of them reports `Active` the result is `(false, nil)`, which the
caller turns into an `InProgress` event at stage `LambdaStabilize` (when the
timeout budget is not yet exhausted) — never success, never Failed; a state
other than `NotFound`, `Active` or `Pending` yields an error instead. -/
theorem initializeLambda_bounded :
    (∀ (s0 : Except String State) (createRes : Option String)
       (getFnRes : Except String Unit) (updateRes : Option String)
       (polls : Nat → Except String State) (fn : String),
       (s0 = .ok .NotFound ∧ createRes = none ∨ s0 = .ok .Pending) →
       (∀ i < retryCount, ∃ s, polls i = .ok s ∧ s ≠ State.Active) →
       initializeLambda s0 createRes getFnRes updateRes polls fn = (false, none)) ∧
    (∀ (s0 : Except String State) (createRes : Option String)
       (getFnRes : Except String Unit) (updateRes : Option String)
       (p q : Nat → Except String State) (fn : String),
       (∀ i < retryCount, p i = q i) →
       initializeLambda s0 createRes getFnRes updateRes p fn
         = initializeLambda s0 createRes getFnRes updateRes q fn) ∧
    (∀ (model : Model) (elapsed : ℚ) (lke : List String),
       checkTimeOut elapsed model.TimeOut = false →
       lambdaGate (false, none) model elapsed lke
         = some (inProgressEvent model LambdaStabilize)) ∧
    (∀ (s : State) (createRes : Option String) (getFnRes : Except String Unit)
       (updateRes : Option String) (polls : Nat → Except String State) (fn : String),
       s ≠ .NotFound → s ≠ .Active → s ≠ .Pending →
       ∃ m, initializeLambda (.ok s) createRes getFnRes updateRes polls fn
         = (false, some m)) := by
  refine ⟨?_, ?_, ?_, ?_⟩
  · intro s0 createRes getFnRes updateRes polls fn hinit hpolls
    have hloop : stabilizeLoop polls retryCount 0 = (false, none) :=
      stabilizeLoop_exhausted polls retryCount 0 (fun j hj => by
        simpa using hpolls j hj)
    rcases hinit with ⟨hs0, hc⟩ | hs0 <;> subst hs0
    · subst hc
      simpa [initializeLambda] using hloop
    · simpa [initializeLambda] using hloop
  · intro s0 createRes getFnRes updateRes p q fn hpq
    have hloop : stabilizeLoop p retryCount 0 = stabilizeLoop q retryCount 0 :=
      stabilizeLoop_congr p q retryCount 0 (fun j hj => by simpa using hpq j hj)
    cases s0 with
    | error e => rfl
    | ok s =>
      cases s <;> simp [initializeLambda, hloop]
  · intro model elapsed lke hto
    simp [lambdaGate, makeEvent, hto]
  · intro s createRes getFnRes updateRes polls fn h1 h2 h3
    cases s with
    | NotFound => exact absurd rfl h1
    | Active => exact absurd rfl h2
    | Pending => exact absurd rfl h3
    | Inactive => exact ⟨_, rfl⟩
    | Failed => exact ⟨_, rfl⟩
    | unknown sv => exact ⟨_, rfl⟩

/-- Witness for C9: a bridge stuck in `Pending` for all three polls gives
`(false, nil)` and an `InProgress` event at `LambdaStabilize`; a `Failed`
state yields an error. -/
theorem initializeLambda_bounded_witness :
    initializeLambda (.ok .Pending) none (.ok ()) none (fun _ => .ok .Pending) "fn"
      = (false, none) ∧
    lambdaGate (false, none) { } 0 [] = some (inProgressEvent { } LambdaStabilize) ∧
    ∃ m, initializeLambda (.ok .Failed) none (.ok ()) none (fun _ => .ok .Failed) "fn"
      = (false, some m) :=
  ⟨initializeLambda_bounded.1 (.ok .Pending) none (.ok ()) none (fun _ => .ok .Pending)
      "fn" (Or.inr rfl) (fun i _ => ⟨.Pending, rfl, by decide⟩),
   initializeLambda_bounded.2.2.1 { } 0 [] (by decide),
   initializeLambda_bounded.2.2.2 .Failed none (.ok ()) none (fun _ => .ok .Failed) "fn"
     (by decide) (by decide) (by decide)⟩


/-! ## The readiness inspector (`CheckPendingResources`, `cmd/resource/kube.go`)

The manifest text is parsed into discrete object records by the external
Kubernetes resource builder (`getManifestDetails`); a `ReleaseDataM` carries
the manifest text together with that parse outcome. Only the fields each
per-kind case reads are carried by `KubeObject`; a `Deployment`/`StatefulSet`
`spec.replicas` pointer is an `Option` (absent field ⇒ `none`), and the
source dereferences it without a nil check. -/

/-- One parsed manifest object, by kind, with the fields the inspector
reads. -/
inductive KubeObject where
  | service (svcType : String) (lbIngressCount : Nat)
  | deployment (readyReplicas : Int) (specReplicas : Option Int)
  | daemonset (numberUnavailable : Int)
  | statefulset (readyReplicas : Int) (specReplicas : Option Int)
  | ingress (lbIngressCount : Nat)
  | other (kind : String)
  deriving Repr, DecidableEq

/-- `ReleaseData` plus the outcome of `getManifestDetails` on its manifest
text (the external parse; `.error` models a builder failure). -/
structure ReleaseDataM where
  Name : String := ""
  Chart : String := ""
  Namespace : String := ""
  Manifest : String := ""
  parsedObjects : Except String (List KubeObject) := .ok []

/-- One iteration of the per-object switch in `CheckPendingResources`:
`some b` is that object's contribution to the pending flag, `none` is the
nil-pointer dereference of an absent `spec.replicas`. -/
def pendStep : KubeObject → Option Bool
  | .service t n => some (decide (t = "LoadBalancer" ∧ n = 0))
  | .deployment _ none => none
  | .deployment r (some d) => some (decide (r < d))
  | .daemonset u => some (decide (0 < u))
  | .statefulset _ none => none
  | .statefulset r (some d) => some (decide (r < d))
  | .ingress n => some (decide (n = 0))
  | .other _ => some false

/-- The loop of `CheckPendingResources`: OR-accumulate the per-object
contributions, propagating a panic. -/
def pendFold : List KubeObject → Bool → PanicOr Bool
  | [], p => .res p
  | o :: rest, p =>
    match pendStep o with
    | none => .panics
    | some b => pendFold rest (p || b)

/-- `CheckPendingResources` (`kube.go`): empty manifest text is an input
error; a parse failure is returned as an error with `pending = true`;
otherwise the per-kind OR over all parsed objects with no error. -/
def CheckPendingResources (r : ReleaseDataM) : PanicOr (Bool × Option String) :=
  if r.Manifest = "" then .res (true, some "Manifest not provided in the request")
  else
    match r.parsedObjects with
    | .error e => .res (true, some e)
    | .ok objs =>
      match pendFold objs false with
      | .panics => .panics
      | .res p => .res (p, none)

/-- The per-kind pending rule as the specification table states it:
LoadBalancer `Service` with empty ingress list; `Deployment`/`StatefulSet`
with ready < desired; `DaemonSet` with unavailable > 0; `Ingress` with empty
ingress list; any other kind never pending. -/
def pendingKind : KubeObject → Bool
  | .service t n => t = "LoadBalancer" && n = 0
  | .deployment r (some d) => r < d
  | .deployment _ none => false
  | .daemonset u => 0 < u
  | .statefulset r (some d) => r < d
  | .statefulset _ none => false
  | .ingress n => n = 0
  | .other _ => false

/-- An object is well-formed for the inspector when every replica pointer it
dereferences is present. -/
def wfReplicas : KubeObject → Bool
  | .deployment _ none => false
  | .statefulset _ none => false
  | _ => true

theorem pendStep_wf (o : KubeObject) (h : wfReplicas o = true) :
    pendStep o = some (pendingKind o) := by
  cases o with
  | service t n =>
    simp only [pendStep, pendingKind, Option.some.injEq]
    by_cases ht : t = "LoadBalancer" <;> by_cases hn : n = 0 <;> simp [ht, hn]
  | deployment r d =>
    cases d with
    | none => simp [wfReplicas] at h
    | some dv => simp [pendStep, pendingKind]
  | daemonset u => simp [pendStep, pendingKind]
  | statefulset r d =>
    cases d with
    | none => simp [wfReplicas] at h
    | some dv => simp [pendStep, pendingKind]
  | ingress n => simp [pendStep, pendingKind]
  | other k => simp [pendStep, pendingKind]

theorem pendFold_wf (objs : List KubeObject) (acc : Bool)
    (h : ∀ o ∈ objs, wfReplicas o = true) :
    pendFold objs acc = .res (acc || objs.any pendingKind) := by
  induction objs generalizing acc with
  | nil => simp [pendFold]
  | cons o rest ih =>
    have ho := pendStep_wf o (h o (by simp))
    simp only [pendFold, ho]
    rw [ih (acc || pendingKind o) (fun x hx => h x (by simp [hx]))]
    simp [Bool.or_assoc]

theorem pendFold_panic (objs : List KubeObject) (acc : Bool)
    (h : ∃ o ∈ objs, pendStep o = none) :
    pendFold objs acc = .panics := by
  induction objs generalizing acc with
  | nil => simp at h
  | cons o rest ih =>
    rcases h with ⟨x, hx, hstep⟩
    rcases List.mem_cons.mp hx with hx | hx
    · subst hx
      simp [pendFold, hstep]
    · cases ho : pendStep o with
      | none => simp [pendFold, ho]
      | some b =>
        simp only [pendFold, ho]
        exact ih _ ⟨x, hx, hstep⟩

/-- C3. Readiness is the OR of the per-kind pending predicates: on a
non-empty manifest that parses to objects whose dereferenced replica fields
are present, `CheckPendingResources` returns no error, and its pending flag
is true exactly when at least one parsed object is pending under its kind's
rule (`pendingKind`, the specification table — under which objects of any
other kind are never pending). -/
theorem checkPending_or_of_kinds (r : ReleaseDataM) (objs : List KubeObject)
    (hm : r.Manifest ≠ "") (hp : r.parsedObjects = .ok objs)
    (hwf : ∀ o ∈ objs, wfReplicas o = true) :
    ∃ p, CheckPendingResources r = .res (p, none) ∧
      (p = true ↔ ∃ o ∈ objs, pendingKind o = true) := by
  refine ⟨objs.any pendingKind, ?_, ?_⟩
  · simp only [CheckPendingResources, if_neg hm, hp]
    rw [pendFold_wf objs false hwf]
    simp
  · simp [List.any_eq_true]

/-- Witness for C3: a lone Deployment with ready 1 of desired 2 is pending;
the same Deployment at 2 of 2 is not; a LoadBalancer Service with an empty
ingress list makes the manifest pending alongside non-pending objects. -/
theorem checkPending_or_of_kinds_witness :
    CheckPendingResources
        { Manifest := "m", parsedObjects := .ok [.deployment 1 (some 2)] }
      = .res (true, none) ∧
    CheckPendingResources
        { Manifest := "m", parsedObjects := .ok [.deployment 2 (some 2)] }
      = .res (false, none) ∧
    CheckPendingResources
        { Manifest := "m", parsedObjects := .ok
            [.other "ConfigMap", .service "LoadBalancer" 0, .deployment 2 (some 2)] }
      = .res (true, none) ∧
    ∃ p, CheckPendingResources
        { Manifest := "m", parsedObjects := .ok [.deployment 1 (some 2)] }
      = .res (p, none) ∧
      (p = true ↔ ∃ o ∈ [KubeObject.deployment 1 (some 2)], pendingKind o = true) :=
  ⟨rfl, rfl, rfl,
   checkPending_or_of_kinds
     { Manifest := "m", parsedObjects := .ok [.deployment 1 (some 2)] }
     [.deployment 1 (some 2)] (by decide) rfl (by decide)⟩

/-- C4 counterexample: a non-empty manifest text that parses to zero objects
is *not* an input error — the inspector returns `pending = false` with no
error (i.e. silently "ready"), contrary to the claim. -/
theorem checkPending_zero_objects_counterexample :
    CheckPendingResources { Manifest := "# comment only", parsedObjects := .ok [] }
      = .res (false, none) ∧
    ¬ ∃ p e, CheckPendingResources
        { Manifest := "# comment only", parsedObjects := .ok [] }
      = .res (p, some e) := by
  refine ⟨rfl, ?_⟩
  rintro ⟨p, e, h⟩
  rw [show CheckPendingResources { Manifest := "# comment only", parsedObjects := .ok [] }
      = .res (false, none) from rfl] at h
  simp at h

/-- C4 as amended: the empty manifest string is an input error, but a
non-empty manifest that parses to zero objects returns `pending = false`
with no error. -/
theorem checkPending_degenerate_amended :
    (∀ r : ReleaseDataM, r.Manifest = "" →
      CheckPendingResources r
        = .res (true, some "Manifest not provided in the request")) ∧
    (∀ r : ReleaseDataM, r.Manifest ≠ "" → r.parsedObjects = .ok [] →
      CheckPendingResources r = .res (false, none)) := by
  constructor
  · intro r hr
    simp [CheckPendingResources, hr]
  · intro r hm hp
    simp [CheckPendingResources, hm, hp, pendFold]

/-- Witness for the amended C4. -/
theorem checkPending_degenerate_amended_witness :
    CheckPendingResources { Manifest := "" }
      = .res (true, some "Manifest not provided in the request") ∧
    CheckPendingResources { Manifest := "# comments", parsedObjects := .ok [] }
      = .res (false, none) :=
  ⟨checkPending_degenerate_amended.1 { Manifest := "" } rfl,
   checkPending_degenerate_amended.2 { Manifest := "# comments", parsedObjects := .ok [] }
     (by decide) rfl⟩

/-- C10. The readiness check is not total: any non-empty manifest parsing to
objects among which some Deployment or StatefulSet has no `spec.replicas`
(`none`) makes `CheckPendingResources` hit the unguarded pointer dereference
and panic instead of returning a `(pending, error)` result. -/
theorem checkPending_nil_replicas_panics (r : ReleaseDataM)
    (objs : List KubeObject) (o : KubeObject)
    (hm : r.Manifest ≠ "") (hp : r.parsedObjects = .ok objs) (ho : o ∈ objs)
    (habs : (∃ rr, o = .deployment rr none) ∨ (∃ rr, o = .statefulset rr none)) :
    CheckPendingResources r = .panics := by
  have hstep : pendStep o = none := by
    rcases habs with ⟨rr, h⟩ | ⟨rr, h⟩ <;> subst h <;> rfl
  simp only [CheckPendingResources, if_neg hm, hp]
  rw [pendFold_panic objs false ⟨o, ho, hstep⟩]

/-- Witness for C10: a manifest whose single Deployment lacks
`spec.replicas` panics the inspector. -/
theorem checkPending_nil_replicas_panics_witness :
    CheckPendingResources { Manifest := "m", parsedObjects := .ok [.deployment 0 none] }
      = .panics :=
  checkPending_nil_replicas_panics
    { Manifest := "m", parsedObjects := .ok [.deployment 0 none] }
    [.deployment 0 none] (.deployment 0 none) (by decide) rfl (by simp)
    (Or.inl ⟨0, rfl⟩)

end HelmProvider
